import Mathlib

/-!
The program obsdisk: volume registry, create request and refresh loop

A shallow embedding of `cmd/obsdisk.go` and `apps/meta/meta.go`.

* Go strings are Lean `String`s.
* The sqlite table `vols` is the list of its rows; the outcome of each call into the
  database engine, the clock and the `juicefs` subprocess is an explicit argument.
* `formSubmit` returns the dialog it shows, the table afterwards and the list of the
  external effects it attempted, in order.
* `volsMap` is the list of its keys; `data` is the list of table rows.
-/

namespace ObsDisk

/-! ## Library functions used by the program -/

/-- Go `unicode.IsSpace`: the Latin-1 spaces and the code points with the
White_Space property. -/
def isSpace (c : Char) : Bool :=
  let n := c.toNat
  n = 0x09 || n = 0x0A || n = 0x0B || n = 0x0C || n = 0x0D || n = 0x20
    || n = 0x85 || n = 0xA0 || n = 0x1680 || (0x2000 ≤ n && n ≤ 0x200A)
    || n = 0x2028 || n = 0x2029 || n = 0x202F || n = 0x205F || n = 0x3000

/-- Go `strings.TrimSpace`: drop the leading and the trailing white space. -/
def trimSpace (s : String) : String :=
  String.mk (((s.data.dropWhile isSpace).reverse.dropWhile isSpace).reverse)

/-- Substring test on character lists: `sub` starts at some position of `s`. -/
def containsL (sub : List Char) : List Char → Bool
  | [] => sub.isPrefixOf []
  | c :: s => sub.isPrefixOf (c :: s) || containsL sub s

/-- Go `strings.Contains(s, substr)`. -/
def stringsContains (s substr : String) : Bool :=
  containsL substr.data s.data

/-- The text that follows the leftmost occurrence of `marker`, if there is one. -/
def findAfter (marker : List Char) : List Char → Option (List Char)
  | [] => if marker.isPrefixOf [] then some [] else none
  | c :: s =>
    if marker.isPrefixOf (c :: s) then some ((c :: s).drop marker.length)
    else findAfter marker s

/-- The marker of the regular expression in `extraFatalErr`. -/
def fatalMarker : String := "<FATAL>:"

/-- Go `regexp.MustCompile("(?s)<FATAL>:(.*)").FindStringSubmatch(ori)`: the leftmost
match starts at the first `<FATAL>:`; with the `s` flag the greedy group `(.*)` runs to
the end of the text. The result is the whole match and the group, or nothing. -/
def findStringSubmatch (ori : String) : List String :=
  match findAfter fatalMarker.data ori.data with
  | some rest => [fatalMarker ++ String.mk rest, String.mk rest]
  | none => []

/-! ## `extraFatalErr` and `parseObsTypeFromBucket` -/

/-- The function `extraFatalErr` of `cmd/obsdisk.go`. -/
def extraFatalErr (ori : String) : String :=
  if ori = "" then ""
  else
    let m := findStringSubmatch ori
    if 2 ≤ m.length then m.getD 1 "" else ori

/-- The table `obsSchemaMap`: url keyword, obs schema. -/
def obsSchemaMap : List (String × String) :=
  [("aliyuncs", "oss"), ("myhuaweicloud", "obs"), ("myqcloud", "cos")]

/-- An order in which one `range obsSchemaMap` visits the entries: Go leaves the
iteration order of a map unspecified, so every arrangement of the entries is possible. -/
def MapOrder : Type := { l : List (String × String) // l.Perm obsSchemaMap }

/-- The loop of `parseObsTypeFromBucket`: the schema of the first visited keyword that
occurs in the bucket, and the empty string when the loop ends without a hit. -/
def firstSchema (bucket : String) : List (String × String) → String
  | [] => ""
  | (k, s) :: rest => if stringsContains bucket k then s else firstSchema bucket rest

/-- The function `parseObsTypeFromBucket` of `cmd/obsdisk.go`, under the iteration
order `order`. -/
def parseObsTypeFromBucket (order : MapOrder) (bucket : String) : Except String String :=
  let schema := firstSchema bucket order.val
  if schema = "" then .error ("unsupport bucket " ++ bucket) else .ok schema

/-! ## The table `vols` -/

/-- A point in time, in seconds. -/
abbrev Time := Nat

/-- The struct `Vol`: the fields of the embedded `gorm.Model`, then `Name`, `ObsType`. -/
structure Vol where
  ID : Nat
  CreatedAt : Time
  UpdatedAt : Time
  DeletedAt : Option Time
  Name : String
  ObsType : String
deriving DecidableEq, Repr

/-- The rows of the table `vols`. The migration of `Vol` puts a primary key on `ID`
and no unique index on `name` (the field carries no gorm tag). -/
abbrev DB := List Vol

/-- The query `SELECT count(*) FROM vols WHERE name = ?`. -/
def countByName (db : DB) (diskName : String) : Nat :=
  (db.filter (fun v => v.Name = diskName)).length

/-- The function `diskExisted` (and `Meta.DiskExisted`): `queryErr` is the error of
the count query, if the engine reports one. -/
def diskExisted (db : DB) (diskName : String) (queryErr : Option String) :
    Bool × Option String :=
  match queryErr with
  | some err => (false, some err)
  | none => (decide (0 < countByName db diskName), none)

/-- What the engine answers to one insert: an error, or the row id it assigned and
the time it stamped. -/
abbrev InsertOutcome := Except String (Nat × Time)

/-- The call `db.Create(&Vol{Name: diskName, ObsType: obsType}).Error`: a plain insert.
A failed insert is rolled back and leaves the table as it was. -/
def dbCreate (db : DB) (diskName obsType : String) (o : InsertOutcome) :
    DB × Option String :=
  match o with
  | .error err => (db, some err)
  | .ok (id, now) =>
    (db ++ [{ ID := id, CreatedAt := now, UpdatedAt := now, DeletedAt := none,
              Name := diskName, ObsType := obsType }], none)

/-- The method `Meta.NewDisk` of `apps/meta/meta.go`. -/
def NewDisk (db : DB) (diskName obsType : String) (o : InsertOutcome) :
    DB × Option String :=
  dbCreate db diskName obsType o

/-- The function `disks` (and `Meta.Disks`): `listing` is what the scan of the table
returned, or its error. -/
def disks (listing : Except String (List Vol)) : Except String (List Vol) :=
  match listing with
  | .error err => .error err
  | .ok vols => .ok vols

/-! ## The create request `formSubmit` -/

/-- The paths and the path function that `main` fixes before the form is built. -/
structure Env where
  jfs : String
  metasDir : String
  pathJoin : String → String → String

/-- The text of the four entries of the form. -/
structure Form where
  diskName : String
  accessKey : String
  secretKey : String
  bucket : String

/-- What the outside answers during one run of `formSubmit`: the iteration order of
the keyword map, the error of the count query, the error of `cmd.Run()` (non-nil on a
non-zero exit) with the captured standard error, and the answer to the insert. -/
structure World where
  order : MapOrder
  queryErr : Option String
  runErr : Option String
  stderr : String
  insert : InsertOutcome

/-- The errors `formSubmit` shows with `dialog.ShowError`. -/
inductive SubmitError where
  | emptyDiskName
  | emptyAccessKey
  | emptySecret
  | emptyBucket
  | parseFailed (err : String)
  | checkExistFailed (err : String)
  | existed (diskName : String)
  | formatErr (detail : String)
  | recordErr (err : String)
deriving DecidableEq, Repr

/-- The text of each error, as built by `fmt.Errorf` in `formSubmit`. -/
def SubmitError.message : SubmitError → String
  | .emptyDiskName => "empty DiskName"
  | .emptyAccessKey => "empty AccessKey"
  | .emptySecret => "empty AccessKey Secret"
  | .emptyBucket => "empty Bucket"
  | .parseFailed err => "parse obs type from bucket failed: " ++ err
  | .checkExistFailed err => "check DiskName exist failed: " ++ err
  | .existed diskName => "DiskName " ++ diskName ++ " existed"
  | .formatErr detail => "format err: " ++ detail
  | .recordErr err => "record disk err: " ++ err

/-- The errors that reject the input before anything else is done. -/
def SubmitError.isInvalidInput : SubmitError → Bool
  | .emptyDiskName | .emptyAccessKey | .emptySecret | .emptyBucket | .parseFailed _ => true
  | _ => false

/-- The dialog that ends `formSubmit`. -/
inductive Dialog where
  | showError (err : SubmitError)
  | showInformation (title message : String)
deriving DecidableEq, Repr

/-- The calls `formSubmit` makes to the outside, apart from the dialog. -/
inductive Effect where
  | countQuery (diskName : String)
  | run (argv : List String)
  | osRemove (path : String)
  | insert (diskName obsType : String)
deriving DecidableEq, Repr

/-- The argument vector of the `juicefs format` command. -/
def formatArgv (env : Env) (ak sk bucket obsType meta diskName : String) : List String :=
  [env.jfs, "format", "--trash-days", "0", "--access-key", ak, "--secret-key", sk,
   "--bucket", bucket, "--storage", obsType, "sqlite3://" ++ meta, diskName]

/-- The closure `formSubmit` of `main`: the dialog shown, the table afterwards and
the effects attempted, in order. -/
def formSubmit (env : Env) (db : DB) (form : Form) (w : World) :
    Dialog × DB × List Effect :=
  let diskName := trimSpace form.diskName
  let ak := trimSpace form.accessKey
  let sk := trimSpace form.secretKey
  let bucket := trimSpace form.bucket
  if diskName = "" then (.showError .emptyDiskName, db, [])
  else if ak = "" then (.showError .emptyAccessKey, db, [])
  else if sk = "" then (.showError .emptySecret, db, [])
  else if bucket = "" then (.showError .emptyBucket, db, [])
  else
    match parseObsTypeFromBucket w.order bucket with
    | .error err => (.showError (.parseFailed err), db, [])
    | .ok obsType =>
      match diskExisted db diskName w.queryErr with
      | (_, some err) => (.showError (.checkExistFailed err), db, [.countQuery diskName])
      | (true, none) => (.showError (.existed diskName), db, [.countQuery diskName])
      | (false, none) =>
        let meta := env.pathJoin env.metasDir diskName
        let argv := formatArgv env ak sk bucket obsType meta diskName
        match w.runErr with
        | some _ =>
          (.showError (.formatErr (extraFatalErr w.stderr)), db,
            [.countQuery diskName, .run argv, .osRemove meta])
        | none =>
          match dbCreate db diskName obsType w.insert with
          | (db', some err) =>
            (.showError (.recordErr err), db',
              [.countQuery diskName, .run argv, .insert diskName obsType, .osRemove meta])
          | (db', none) =>
            (.showInformation "success" "submit success", db',
              [.countQuery diskName, .run argv, .insert diskName obsType])

/-- The dialog of a request that went through. -/
def Dialog.isSuccess : Dialog → Bool
  | .showInformation _ _ => true
  | .showError _ => false

/-- A sequence of create requests, one after the other on the same table: the dialog
and the effects of each. -/
def runRequests (env : Env) : DB → List (Form × World) → List (Dialog × List Effect)
  | _, [] => []
  | db, (form, w) :: rest =>
    let r := formSubmit env db form w
    (r.1, r.2.2) :: runRequests env r.2.1 rest

/-! ## The refresh of the displayed rows -/

/-- The first row of `data`. -/
def header : List String := ["DiskName", "CreatTime", "ObsType", "Actions"]

/-- The state the refresh works on: the keys of `volsMap` and the rows of `data`. -/
structure View where
  volsMap : List String
  data : List (List String)
deriving DecidableEq, Repr

/-- The row built for one record; `fmt` is `Format(time.RFC3339)`. -/
def rowOf (fmt : Time → String) (vol : Vol) : List String :=
  [vol.Name, fmt vol.CreatedAt, vol.ObsType, ""]

/-- One turn of the loop `for _, vol := range vols`. -/
def refreshStep (fmt : Time → String) (st : View) (vol : Vol) : View :=
  if vol.Name ∈ st.volsMap then st
  else { volsMap := vol.Name :: st.volsMap, data := st.data ++ [rowOf fmt vol] }

/-- The loop over one listing, as in the initial load and in the ticker body. -/
def refresh (fmt : Time → String) (st : View) (vols : List Vol) : View :=
  vols.foldl (refreshStep fmt) st

/-- The state before the initial load: no key in `volsMap`, the header in `data`. -/
def initView : View := { volsMap := [], data := [header] }

/-- The ticker goroutine: one refresh per tick, until `disks` fails. -/
def tickerLoop (fmt : Time → String) : View → List (Except String (List Vol)) → View
  | st, [] => st
  | st, listing :: rest =>
    match disks listing with
    | .error _ => st
    | .ok vols => tickerLoop fmt (refresh fmt st vols) rest

/-- The initial load followed by the ticker loop; `main` returns when the first
listing fails. -/
def observe (fmt : Time → String) : List (Except String (List Vol)) → View
  | [] => initView
  | listing :: rest =>
    match disks listing with
    | .error _ => initView
    | .ok vols => tickerLoop fmt (refresh fmt initView vols) rest

/-- The records a refresh is to append, read off the listing position by position:
the record at position `i` is kept when its name is not in the seen-set and does not
occur at an earlier position. -/
def newlySeen (seen : List String) (vols : List Vol) : List Vol :=
  (List.range vols.length).filterMap (fun i =>
    match vols.get? i with
    | some vol =>
      if vol.Name ∉ seen ∧ vol.Name ∉ (vols.take i).map Vol.Name then some vol else none
    | none => none)

/-! ## Notions used in the statements -/

/-- The records one refresh appends, by recursion on the listing (a proof device: the
statements below are about `newlySeen`). -/
def appended : List String → List Vol → List Vol
  | _, [] => []
  | seen, v :: vols =>
    if v.Name ∈ seen then appended seen vols else v :: appended (v.Name :: seen) vols

/-- The rows after the header are rows of records with pairwise distinct names, all of
them keys of `volsMap`. -/
def ViewInv (fmt : Time → String) (st : View) : Prop :=
  ∃ vs : List Vol, st.data = header :: vs.map (rowOf fmt) ∧ (vs.map Vol.Name).Nodup ∧
    ∀ v ∈ vs, v.Name ∈ st.volsMap

/-- The input passes the checks at the head of `formSubmit`: the four trimmed entries
are non-empty and the trimmed bucket is classified as `obsType`. -/
def ValidInput (form : Form) (w : World) (obsType : String) : Prop :=
  trimSpace form.diskName ≠ "" ∧ trimSpace form.accessKey ≠ "" ∧
    trimSpace form.secretKey ≠ "" ∧ trimSpace form.bucket ≠ "" ∧
    parseObsTypeFromBucket w.order (trimSpace form.bucket) = .ok obsType

/-- The number of requests of the sequence that succeed with trimmed disk name `n`. -/
def successesFor (env : Env) (db : DB) (reqs : List (Form × World)) (n : String) : Nat :=
  ((reqs.zip (runRequests env db reqs)).filter
    (fun p => decide (trimSpace p.1.1.diskName = n) && p.2.1.isSuccess)).length

/-! ### Sample data -/

/-- A sample environment: `path.Join` on two clean components puts a slash between. -/
def env0 : Env :=
  { jfs := "/opt/obsdisk/juicefs", metasDir := "/home/u/ObsDisk/metas",
    pathJoin := fun dir name => dir ++ "/" ++ name }

/-- The iteration order that follows the source text of `obsSchemaMap`. -/
def order0 : MapOrder := ⟨obsSchemaMap, List.Perm.refl _⟩

/-- A filled form; the disk name carries blanks around it. -/
def form0 : Form :=
  { diskName := " d1 ", accessKey := "A", secretKey := "B", bucket := "bucket.aliyuncs.com" }

/-- The same form with the access key left blank. -/
def formNoKey : Form :=
  { diskName := "d1", accessKey := "  ", secretKey := "B", bucket := "bucket.aliyuncs.com" }

/-- Everything succeeds; the engine assigns row id 2 at time 1700000000. -/
def worldOk : World :=
  { order := order0, queryErr := none, runErr := none, stderr := "",
    insert := .ok (2, 1700000000) }

/-- The format command exits non-zero. -/
def worldFormatFails : World :=
  { order := order0, queryErr := none, runErr := some "exit status 1",
    stderr := "noise\n<FATAL>: disk full\nmore", insert := .ok (2, 1700000000) }

/-- The format command succeeds and the insert fails. -/
def worldInsertFails : World :=
  { order := order0, queryErr := none, runErr := none, stderr := "",
    insert := .error "database is locked" }

/-- The count query fails. -/
def worldQueryFails : World :=
  { order := order0, queryErr := some "disk I/O error", runErr := none, stderr := "",
    insert := .ok (2, 1700000000) }

/-- A table that holds one record named `d1`. -/
def dbD1 : DB :=
  [{ ID := 1, CreatedAt := 1600000000, UpdatedAt := 1600000000, DeletedAt := none,
     Name := "d1", ObsType := "oss" }]

/-- A record named `d2`. -/
def volD2 : Vol :=
  { ID := 2, CreatedAt := 1700000000, UpdatedAt := 1700000500, DeletedAt := none,
    Name := "d2", ObsType := "cos" }

/-- A sample rendering of a time: its decimal digits. -/
def fmt0 (t : Time) : String := toString t

/-! ## Substrings and the marker search -/

theorem containsL_iff (sub s : List Char) : containsL sub s = true ↔ sub <:+: s := by
  induction s with
  | nil =>
    simp only [containsL, List.isPrefixOf_iff_prefix, List.infix_nil, List.prefix_nil]
  | cons c s ih =>
    simp only [containsL, Bool.or_eq_true, List.isPrefixOf_iff_prefix, ih,
      List.infix_cons_iff]

theorem stringsContains_iff (s substr : String) :
    stringsContains s substr = true ↔ substr.data <:+: s.data :=
  containsL_iff _ _

theorem findAfter_none (m s : List Char) : findAfter m s = none ↔ ¬ m <:+: s := by
  induction s with
  | nil =>
    simp only [findAfter, List.isPrefixOf_iff_prefix, List.infix_nil, List.prefix_nil]
    split <;> simp_all
  | cons c s ih =>
    simp only [findAfter, List.isPrefixOf_iff_prefix, List.infix_cons_iff]
    split
    · rename_i h; simp [h]
    · rename_i h; simp [h, ih]

theorem findAfter_some (m s post : List Char) (h : findAfter m s = some post) :
    ∃ pre, s = pre ++ m ++ post ∧
      ∀ pre1 post1, s = pre1 ++ m ++ post1 → pre.length ≤ pre1.length := by
  induction s with
  | nil =>
    simp only [findAfter, List.isPrefixOf_iff_prefix, List.prefix_nil] at h
    split at h
    · rename_i hm
      simp only [Option.some.injEq] at h
      subst hm; subst h
      exact ⟨[], rfl, fun _ _ _ => Nat.zero_le _⟩
    · cases h
  | cons c s ih =>
    simp only [findAfter, List.isPrefixOf_iff_prefix] at h
    split at h
    · rename_i hm
      simp only [Option.some.injEq] at h
      refine ⟨[], ?_, fun _ _ _ => Nat.zero_le _⟩
      obtain ⟨t, ht⟩ := hm
      rw [← h, ← ht]
      simp
    · rename_i hm
      obtain ⟨pre, hpre, hmin⟩ := ih h
      refine ⟨c :: pre, by simp [hpre], ?_⟩
      intro pre1 post1 h1
      cases pre1 with
      | nil =>
        exact absurd ⟨post1, by simpa using h1.symm⟩ hm
      | cons d pre2 =>
        simp only [List.cons_append, List.cons.injEq] at h1
        have := hmin pre2 post1 h1.2
        simp only [List.length_cons]
        omega

/-! ## `extraFatalErr` -/

theorem extraFatalErr_of_findAfter (ori : String) (rest : List Char)
    (h : findAfter fatalMarker.data ori.data = some rest) :
    extraFatalErr ori = String.mk rest := by
  have hne : ori ≠ "" := by
    rintro rfl
    have h0 : findAfter fatalMarker.data "".data = none := by decide
    rw [h0] at h
    cases h
  simp [extraFatalErr, findStringSubmatch, h, hne]

theorem extraFatalErr_of_no_marker (ori : String)
    (h : findAfter fatalMarker.data ori.data = none) : extraFatalErr ori = ori := by
  by_cases hne : ori = ""
  · subst hne
    rfl
  · simp [extraFatalErr, findStringSubmatch, h, hne]

/-- C8, as the code has it: when the text contains the marker `<FATAL>:`,
`extraFatalErr` returns everything after the first occurrence of the marker, exactly as
it stands there, white space included. -/
theorem extraFatalErr_after_first_marker (ori : String)
    (h : fatalMarker.data <:+: ori.data) :
    ∃ pre post : String, ori = pre ++ fatalMarker ++ post ∧
      (∀ pre1 post1 : String, ori = pre1 ++ fatalMarker ++ post1 →
        pre.length ≤ pre1.length) ∧
      extraFatalErr ori = post := by
  cases hf : findAfter fatalMarker.data ori.data with
  | none => exact absurd h ((findAfter_none _ _).1 hf)
  | some rest =>
    obtain ⟨pre, hpre, hmin⟩ := findAfter_some _ _ _ hf
    refine ⟨String.mk pre, String.mk rest, ?_, ?_, extraFatalErr_of_findAfter ori rest hf⟩
    · apply String.ext
      rw [String.data_append, String.data_append, hpre]
    · intro pre1 post1 h1
      have := hmin pre1.data post1.data
        (by rw [h1, String.data_append, String.data_append])
      exact this

/-- Witness of `extraFatalErr_after_first_marker` on the text of the specification. -/
theorem extraFatalErr_after_first_marker_witness :
    ∃ pre post : String, "noise\n<FATAL>: disk full\nmore" = pre ++ fatalMarker ++ post ∧
      (∀ pre1 post1 : String, "noise\n<FATAL>: disk full\nmore" = pre1 ++ fatalMarker ++ post1 →
        pre.length ≤ pre1.length) ∧
      extraFatalErr "noise\n<FATAL>: disk full\nmore" = post :=
  extraFatalErr_after_first_marker "noise\n<FATAL>: disk full\nmore"
    ((stringsContains_iff _ _).1 (by decide))

/-- C8 fails as written: on `"noise\n<FATAL>: disk full\nmore"` the result keeps the
blank after the marker, so it is neither the trimmed text nor `"disk full\nmore"`. -/
theorem extraFatalErr_keeps_leading_space :
    extraFatalErr "noise\n<FATAL>: disk full\nmore" = " disk full\nmore" ∧
      extraFatalErr "noise\n<FATAL>: disk full\nmore" ≠ trimSpace " disk full\nmore" ∧
      extraFatalErr "noise\n<FATAL>: disk full\nmore" ≠ "disk full\nmore" := by
  decide

/-- C9: a text without the marker `<FATAL>:` is returned unchanged. -/
theorem extraFatalErr_without_marker (ori : String)
    (h : ¬ fatalMarker.data <:+: ori.data) : extraFatalErr ori = ori :=
  extraFatalErr_of_no_marker ori ((findAfter_none _ _).2 h)

/-- Witness of `extraFatalErr_without_marker`: the empty text and the text
`"plain error, no marker"` of the specification. -/
theorem extraFatalErr_without_marker_witness :
    extraFatalErr "" = "" ∧
      extraFatalErr "plain error, no marker" = "plain error, no marker" :=
  ⟨extraFatalErr_without_marker ""
      (fun h => absurd ((stringsContains_iff _ _).2 h) (by decide)),
    extraFatalErr_without_marker "plain error, no marker"
      (fun h => absurd ((stringsContains_iff _ _).2 h) (by decide))⟩

/-! ## `parseObsTypeFromBucket` -/

theorem firstSchema_eq_empty (bucket : String) (l : List (String × String))
    (hl : ∀ kv ∈ l, kv.2 ≠ "") :
    firstSchema bucket l = "" ↔ ∀ kv ∈ l, ¬ kv.1.data <:+: bucket.data := by
  induction l with
  | nil => simp [firstSchema]
  | cons kv l ih =>
    obtain ⟨k, t⟩ := kv
    have ht : t ≠ "" := hl (k, t) (List.mem_cons_self _ _)
    have ih1 := ih (fun kv hkv => hl kv (List.mem_cons_of_mem _ hkv))
    simp only [firstSchema, List.mem_cons, forall_eq_or_imp]
    by_cases hc : stringsContains bucket k = true
    · simp [hc, ht, (stringsContains_iff _ _).1 hc]
    · have hn : ¬ k.data <:+: bucket.data := fun h => hc ((stringsContains_iff _ _).2 h)
      simp [hc, hn, ih1]

theorem firstSchema_mem (bucket : String) (l : List (String × String)) (t : String)
    (ht : t ≠ "") (h : firstSchema bucket l = t) :
    ∃ k, (k, t) ∈ l ∧ k.data <:+: bucket.data := by
  induction l with
  | nil => exact absurd h.symm ht
  | cons kv l ih =>
    obtain ⟨k, u⟩ := kv
    simp only [firstSchema] at h
    by_cases hc : stringsContains bucket k = true
    · rw [if_pos hc] at h
      exact ⟨k, by simp [h], (stringsContains_iff _ _).1 hc⟩
    · rw [if_neg hc] at h
      obtain ⟨k1, hk1, hk2⟩ := ih h
      exact ⟨k1, List.mem_cons_of_mem _ hk1, hk2⟩

theorem obsSchemaMap_schema_ne : ∀ kv ∈ obsSchemaMap, kv.2 ≠ "" := by decide

theorem obsSchemaMap_functional :
    ∀ kv ∈ obsSchemaMap, ∀ kw ∈ obsSchemaMap, kv.1 = kw.1 → kv.2 = kw.2 := by decide

theorem parse_error_iff (order : MapOrder) (bucket : String) :
    (∃ err, parseObsTypeFromBucket order bucket = .error err) ↔
      ∀ kv ∈ obsSchemaMap, ¬ kv.1.data <:+: bucket.data := by
  have hne : ∀ kv ∈ order.val, kv.2 ≠ "" :=
    fun kv hkv => obsSchemaMap_schema_ne kv (order.property.mem_iff.1 hkv)
  have key := firstSchema_eq_empty bucket order.val hne
  have hperm : (∀ kv ∈ order.val, ¬ kv.1.data <:+: bucket.data) ↔
      ∀ kv ∈ obsSchemaMap, ¬ kv.1.data <:+: bucket.data :=
    ⟨fun h kv hkv => h kv (order.property.mem_iff.2 hkv),
     fun h kv hkv => h kv (order.property.mem_iff.1 hkv)⟩
  rw [← hperm, ← key]
  unfold parseObsTypeFromBucket
  by_cases h0 : firstSchema bucket order.val = ""
  · simp [h0]
  · simp [h0]

theorem parse_ok_mem (order : MapOrder) (bucket t : String)
    (h : parseObsTypeFromBucket order bucket = .ok t) :
    ∃ k, (k, t) ∈ obsSchemaMap ∧ k.data <:+: bucket.data := by
  unfold parseObsTypeFromBucket at h
  by_cases h0 : firstSchema bucket order.val = ""
  · simp [h0] at h
  · simp only [h0, if_false, Except.ok.injEq] at h
    obtain ⟨k, hk, hk2⟩ := firstSchema_mem bucket order.val t (h ▸ h0) h
    exact ⟨k, order.property.mem_iff.1 hk, hk2⟩

theorem parse_unique_keyword (order : MapOrder) (bucket k t : String)
    (hk : (k, t) ∈ obsSchemaMap) (hin : k.data <:+: bucket.data)
    (huniq : ∀ kv ∈ obsSchemaMap, kv.1.data <:+: bucket.data → kv.1 = k) :
    parseObsTypeFromBucket order bucket = .ok t := by
  cases hp : parseObsTypeFromBucket order bucket with
  | error err =>
    exact absurd hin ((parse_error_iff order bucket).1 ⟨err, hp⟩ (k, t) hk)
  | ok u =>
    obtain ⟨k1, hk1, hk2⟩ := parse_ok_mem order bucket u hp
    have hkk : k1 = k := huniq (k1, u) hk1 hk2
    have := obsSchemaMap_functional (k1, u) hk1 (k, t) hk hkk
    simp only at this
    rw [this]

/-- C10: whatever the iteration order of the keyword map, `parseObsTypeFromBucket`
fails exactly when none of the keywords occurs in the bucket; a type it returns is the
code of a keyword that occurs in the bucket; a bucket in which one keyword only occurs
gets the code of that keyword; `"bucket.aliyuncs.com"` gives `"oss"`. -/
theorem parseObsTypeFromBucket_classifies (order : MapOrder) (bucket : String) :
    ((∃ err, parseObsTypeFromBucket order bucket = .error err) ↔
        ∀ kv ∈ obsSchemaMap, ¬ kv.1.data <:+: bucket.data) ∧
      (∀ t, parseObsTypeFromBucket order bucket = .ok t →
        ∃ k, (k, t) ∈ obsSchemaMap ∧ k.data <:+: bucket.data) ∧
      (∀ k t, (k, t) ∈ obsSchemaMap → k.data <:+: bucket.data →
        (∀ kv ∈ obsSchemaMap, kv.1.data <:+: bucket.data → kv.1 = k) →
        parseObsTypeFromBucket order bucket = .ok t) ∧
      parseObsTypeFromBucket order "bucket.aliyuncs.com" = .ok "oss" := by
  refine ⟨parse_error_iff order bucket, parse_ok_mem order bucket,
    fun k t => parse_unique_keyword order bucket k t, ?_⟩
  apply parse_unique_keyword order "bucket.aliyuncs.com" "aliyuncs" "oss" (by decide)
  · exact (stringsContains_iff _ _).1 (by decide)
  · intro kv hkv hin
    have hc := (stringsContains_iff _ _).2 hin
    revert hc
    revert kv
    decide

/-! ## The refresh loop -/

theorem refresh_cons (fmt : Time → String) (st : View) (v : Vol) (vols : List Vol) :
    refresh fmt st (v :: vols) = refresh fmt (refreshStep fmt st v) vols := rfl

theorem refresh_data (fmt : Time → String) (st : View) (vols : List Vol) :
    (refresh fmt st vols).data = st.data ++ (appended st.volsMap vols).map (rowOf fmt) := by
  induction vols generalizing st with
  | nil => simp [refresh, appended]
  | cons v vols ih =>
    rw [refresh_cons, ih]
    by_cases hv : v.Name ∈ st.volsMap
    · simp [refreshStep, appended, hv]
    · simp [refreshStep, appended, hv]

theorem refresh_volsMap (fmt : Time → String) (st : View) (vols : List Vol) (n : String) :
    n ∈ (refresh fmt st vols).volsMap ↔ n ∈ st.volsMap ∨ n ∈ vols.map Vol.Name := by
  induction vols generalizing st with
  | nil => simp [refresh]
  | cons v vols ih =>
    rw [refresh_cons, ih]
    by_cases hv : v.Name ∈ st.volsMap
    · simp only [refreshStep, hv, if_true, List.map_cons, List.mem_cons]
      constructor
      · rintro (h | h)
        · exact Or.inl h
        · exact Or.inr (Or.inr h)
      · rintro (h | h | h)
        · exact Or.inl h
        · exact Or.inl (h ▸ hv)
        · exact Or.inr h
    · simp only [refreshStep, hv, if_false, List.map_cons, List.mem_cons]
      tauto

theorem appended_mem (seen : List String) (vols : List Vol) (v : Vol)
    (h : v ∈ appended seen vols) : v ∈ vols ∧ v.Name ∉ seen := by
  induction vols generalizing seen with
  | nil => simp [appended] at h
  | cons x vols ih =>
    simp only [appended] at h
    by_cases hx : x.Name ∈ seen
    · rw [if_pos hx] at h
      exact ⟨List.mem_cons_of_mem _ (ih seen h).1, (ih seen h).2⟩
    · rw [if_neg hx] at h
      rcases List.mem_cons.1 h with h | h
      · subst h
        exact ⟨List.mem_cons_self _ _, hx⟩
      · have := ih _ h
        exact ⟨List.mem_cons_of_mem _ this.1, fun hn => this.2 (List.mem_cons_of_mem _ hn)⟩

theorem appended_nodup (seen : List String) (vols : List Vol) :
    ((appended seen vols).map Vol.Name).Nodup := by
  induction vols generalizing seen with
  | nil => simp [appended]
  | cons x vols ih =>
    simp only [appended]
    by_cases hx : x.Name ∈ seen
    · rw [if_pos hx]
      exact ih seen
    · rw [if_neg hx, List.map_cons, List.nodup_cons]
      refine ⟨?_, ih _⟩
      intro hmem
      obtain ⟨v, hv, hvn⟩ := List.mem_map.1 hmem
      exact (appended_mem _ _ v hv).2 (by simp [hvn])

theorem appended_sublist (seen : List String) (vols : List Vol) :
    (appended seen vols).Sublist vols := by
  induction vols generalizing seen with
  | nil => simp [appended]
  | cons x vols ih =>
    simp only [appended]
    by_cases hx : x.Name ∈ seen
    · rw [if_pos hx]
      exact (ih seen).cons _
    · rw [if_neg hx]
      exact (ih _).cons₂ _

theorem appended_eq_nil (seen : List String) (vols : List Vol)
    (h : ∀ v ∈ vols, v.Name ∈ seen) : appended seen vols = [] := by
  induction vols generalizing seen with
  | nil => rfl
  | cons x vols ih =>
    have hx : x.Name ∈ seen := h x (List.mem_cons_self _ _)
    simp only [appended, hx, if_true]
    exact ih seen (fun v hv => h v (List.mem_cons_of_mem _ hv))

theorem appended_eq_singleton (seen : List String) (vols : List Vol) (r : Vol)
    (hr : r.Name ∉ seen) (hmem : r ∈ vols)
    (h : ∀ v ∈ vols, v.Name ∈ seen ∨ v = r) : appended seen vols = [r] := by
  induction vols with
  | nil => simp at hmem
  | cons x vols ih =>
    simp only [appended]
    by_cases hx : x.Name ∈ seen
    · rw [if_pos hx]
      have hxr : r ≠ x := fun e => hr (e ▸ hx)
      rcases List.mem_cons.1 hmem with e | hmem1
      · exact absurd e hxr
      · exact ih hmem1 (fun v hv => h v (List.mem_cons_of_mem _ hv))
    · rw [if_neg hx]
      have hxr : x = r := (h x (List.mem_cons_self _ _)).resolve_left hx
      subst hxr
      rw [appended_eq_nil]
      intro v hv
      rcases h v (List.mem_cons_of_mem _ hv) with h1 | h1
      · exact List.mem_cons_of_mem _ h1
      · simp [h1]

theorem newlySeen_cons (seen : List String) (x : Vol) (vols : List Vol) :
    newlySeen seen (x :: vols) =
      if x.Name ∈ seen then newlySeen seen vols else x :: newlySeen (x.Name :: seen) vols := by
  unfold newlySeen
  rw [List.length_cons, List.range_succ_eq_map, List.filterMap_cons, List.filterMap_map]
  by_cases hx : x.Name ∈ seen
  · simp only [hx, if_true]
    have h0 : (x :: vols).get? 0 = some x := rfl
    simp only [h0, hx, not_true_eq_false, false_and, if_false]
    apply List.filterMap_congr
    intro i _
    simp only [Function.comp, List.get?_cons_succ, List.take_succ_cons, List.map_cons,
      List.mem_cons, not_or]
    cases hg : vols.get? i with
    | none => rfl
    | some vol =>
      simp only
      by_cases hvs : vol.Name ∈ seen
      · simp [hvs]
      · have hne : ¬ vol.Name = x.Name := fun e => hvs (e ▸ hx)
        simp [hvs, hne]
  · simp only [hx, if_false]
    have h0 : (x :: vols).get? 0 = some x := rfl
    simp only [h0, hx, not_false_eq_true, List.take_zero, List.map_nil, List.not_mem_nil,
      and_self, if_true]
    congr 1
    apply List.filterMap_congr
    intro i _
    simp only [Function.comp, List.get?_cons_succ, List.take_succ_cons, List.map_cons,
      List.mem_cons, not_or]
    cases hg : vols.get? i with
    | none => rfl
    | some vol =>
      simp only
      by_cases hvs : vol.Name ∈ seen
      · simp [hvs]
      · by_cases hne : vol.Name = x.Name
        · simp [hne]
        · simp [hvs, hne]

theorem newlySeen_eq_appended (seen : List String) (vols : List Vol) :
    newlySeen seen vols = appended seen vols := by
  induction vols generalizing seen with
  | nil => rfl
  | cons x vols ih =>
    rw [newlySeen_cons, appended, ih, ih]

theorem viewInv_init (fmt : Time → String) : ViewInv fmt initView :=
  ⟨[], rfl, List.nodup_nil, fun _ h => absurd h (List.not_mem_nil _)⟩

theorem viewInv_refresh (fmt : Time → String) (st : View) (vols : List Vol)
    (h : ViewInv fmt st) : ViewInv fmt (refresh fmt st vols) := by
  obtain ⟨vs, hdata, hnd, hseen⟩ := h
  refine ⟨vs ++ appended st.volsMap vols, ?_, ?_, ?_⟩
  · rw [refresh_data, hdata, List.map_append, List.cons_append]
  · rw [List.map_append]
    refine List.Nodup.append hnd (appended_nodup _ _) ?_
    intro n hn1 hn2
    obtain ⟨v, hv, rfl⟩ := List.mem_map.1 hn1
    obtain ⟨u, hu, hun⟩ := List.mem_map.1 hn2
    exact (appended_mem _ _ u hu).2 (hun ▸ hseen v hv)
  · intro v hv
    rw [refresh_volsMap]
    rcases List.mem_append.1 hv with h1 | h1
    · exact Or.inl (hseen v h1)
    · exact Or.inr (List.mem_map_of_mem _ (appended_mem _ _ v h1).1)

theorem viewInv_tickerLoop (fmt : Time → String) (st : View)
    (listings : List (Except String (List Vol))) (h : ViewInv fmt st) :
    ViewInv fmt (tickerLoop fmt st listings) := by
  induction listings generalizing st with
  | nil => exact h
  | cons listing rest ih =>
    cases listing with
    | error err => exact h
    | ok vols => exact ih _ (viewInv_refresh fmt st vols h)

theorem viewInv_observe (fmt : Time → String)
    (listings : List (Except String (List Vol))) : ViewInv fmt (observe fmt listings) := by
  cases listings with
  | nil => exact viewInv_init fmt
  | cons listing rest =>
    cases listing with
    | error err => exact viewInv_init fmt
    | ok vols =>
      exact viewInv_tickerLoop fmt _ rest (viewInv_refresh fmt _ vols (viewInv_init fmt))

/-- C2: starting from the empty `volsMap`, whatever the listings the initial load and
the ticker loop receive (any order, names repeated or not), the displayed rows are the
header followed by the appended rows, and no name is the first column of more than one
appended row. -/
theorem observe_appends_each_name_once (fmt : Time → String)
    (listings : List (Except String (List Vol))) :
    ∃ rows : List (List String), (observe fmt listings).data = header :: rows ∧
      ∀ n : String, (rows.map (fun row => row.headD "")).count n ≤ 1 := by
  obtain ⟨vs, hdata, hnd, _⟩ := viewInv_observe fmt listings
  refine ⟨vs.map (rowOf fmt), hdata, ?_⟩
  have hcol : (vs.map (rowOf fmt)).map (fun row => row.headD "") = vs.map Vol.Name := by
    rw [List.map_map]
    rfl
  rw [hcol]
  exact fun n => List.nodup_iff_count_le_one.1 hnd n

/-- C3: one refresh appends, for exactly the records of the listing whose name is not in
the seen-set, first occurrence of each name only and in the order of the listing, the row
made of the name, the formatted creation time, the provider type and the empty actions
cell; afterwards the seen-set holds the old names and the names of the listing. Hence a
second refresh over the same records, in any order, appends nothing, and a refresh over
the same records with one record of a fresh name added appends the row of that record
and no other. -/
theorem refresh_appends_newly_seen (fmt : Time → String) (st : View) (vols : List Vol) :
    (refresh fmt st vols).data =
        st.data ++ (newlySeen st.volsMap vols).map
          (fun vol => [vol.Name, fmt vol.CreatedAt, vol.ObsType, ""]) ∧
      (newlySeen st.volsMap vols).Sublist vols ∧
      (∀ n, n ∈ (refresh fmt st vols).volsMap ↔ n ∈ st.volsMap ∨ n ∈ vols.map Vol.Name) ∧
      (∀ vols2 : List Vol, vols2.Perm vols →
        (refresh fmt (refresh fmt st vols) vols2).data = (refresh fmt st vols).data) ∧
      (∀ (r : Vol) (vols2 : List Vol), r.Name ∉ st.volsMap → r.Name ∉ vols.map Vol.Name →
        vols2.Perm (vols ++ [r]) →
        (refresh fmt (refresh fmt st vols) vols2).data =
          (refresh fmt st vols).data ++ [[r.Name, fmt r.CreatedAt, r.ObsType, ""]]) := by
  refine ⟨?_, ?_, refresh_volsMap fmt st vols, ?_, ?_⟩
  · rw [newlySeen_eq_appended, refresh_data]
    rfl
  · rw [newlySeen_eq_appended]
    exact appended_sublist _ _
  · intro vols2 hperm
    rw [refresh_data fmt (refresh fmt st vols) vols2, appended_eq_nil]
    · simp
    · intro v hv
      rw [refresh_volsMap]
      exact Or.inr (List.mem_map_of_mem _ (hperm.mem_iff.1 hv))
  · intro r vols2 hr1 hr2 hperm
    rw [refresh_data fmt (refresh fmt st vols) vols2,
      appended_eq_singleton _ vols2 r]
    · rfl
    · rw [refresh_volsMap]
      exact fun h => h.elim hr1 hr2
    · exact hperm.mem_iff.2 (by simp)
    · intro v hv
      rcases List.mem_append.1 (hperm.mem_iff.1 hv) with h1 | h1
      · left
        rw [refresh_volsMap]
        exact Or.inr (List.mem_map_of_mem _ h1)
      · right
        simpa using h1

/-- Witness of `refresh_appends_newly_seen`: from the initial view, a refresh over the
table `dbD1` appends the row of `d1` after the header; a second refresh over `dbD1`
appends nothing; a refresh over `dbD1` with the record `volD2` added appends the row of
`volD2`. -/
theorem refresh_appends_newly_seen_witness :
    (refresh fmt0 initView dbD1).data =
        [["DiskName", "CreatTime", "ObsType", "Actions"],
         ["d1", "1600000000", "oss", ""]] ∧
      (refresh fmt0 (refresh fmt0 initView dbD1) dbD1).data =
        [["DiskName", "CreatTime", "ObsType", "Actions"],
         ["d1", "1600000000", "oss", ""]] ∧
      (refresh fmt0 (refresh fmt0 initView dbD1) (volD2 :: dbD1)).data =
        [["DiskName", "CreatTime", "ObsType", "Actions"],
         ["d1", "1600000000", "oss", ""],
         ["d2", "1700000000", "cos", ""]] :=
  ⟨(refresh_appends_newly_seen fmt0 initView dbD1).1,
    (refresh_appends_newly_seen fmt0 initView dbD1).2.2.2.1 dbD1 (List.Perm.refl _),
    (refresh_appends_newly_seen fmt0 initView dbD1).2.2.2.2 volD2 (volD2 :: dbD1)
      (by decide) (by decide) (List.Perm.swap _ _ _)⟩

/-! ## The create request -/

theorem formSubmit_of_valid (env : Env) (db : DB) (form : Form) (w : World)
    (obsType : String) (hv : ValidInput form w obsType) :
    formSubmit env db form w =
      match diskExisted db (trimSpace form.diskName) w.queryErr with
      | (_, some err) =>
        (.showError (.checkExistFailed err), db, [.countQuery (trimSpace form.diskName)])
      | (true, none) =>
        (.showError (.existed (trimSpace form.diskName)), db,
          [.countQuery (trimSpace form.diskName)])
      | (false, none) =>
        match w.runErr with
        | some _ =>
          (.showError (.formatErr (extraFatalErr w.stderr)), db,
            [.countQuery (trimSpace form.diskName),
             .run (formatArgv env (trimSpace form.accessKey) (trimSpace form.secretKey)
               (trimSpace form.bucket) obsType
               (env.pathJoin env.metasDir (trimSpace form.diskName))
               (trimSpace form.diskName)),
             .osRemove (env.pathJoin env.metasDir (trimSpace form.diskName))])
        | none =>
          match dbCreate db (trimSpace form.diskName) obsType w.insert with
          | (db', some err) =>
            (.showError (.recordErr err), db',
              [.countQuery (trimSpace form.diskName),
               .run (formatArgv env (trimSpace form.accessKey) (trimSpace form.secretKey)
                 (trimSpace form.bucket) obsType
                 (env.pathJoin env.metasDir (trimSpace form.diskName))
                 (trimSpace form.diskName)),
               .insert (trimSpace form.diskName) obsType,
               .osRemove (env.pathJoin env.metasDir (trimSpace form.diskName))])
          | (db', none) =>
            (.showInformation "success" "submit success", db',
              [.countQuery (trimSpace form.diskName),
               .run (formatArgv env (trimSpace form.accessKey) (trimSpace form.secretKey)
                 (trimSpace form.bucket) obsType
                 (env.pathJoin env.metasDir (trimSpace form.diskName))
                 (trimSpace form.diskName)),
               .insert (trimSpace form.diskName) obsType]) := by
  obtain ⟨h1, h2, h3, h4, hp⟩ := hv
  simp only [formSubmit, h1, h2, h3, h4, hp, if_false]

theorem formSubmit_of_invalid (env : Env) (db : DB) (form : Form) (w : World)
    (h : ¬ ∃ obsType, ValidInput form w obsType) :
    ∃ e, formSubmit env db form w = (.showError e, db, []) ∧ e.isInvalidInput = true := by
  unfold formSubmit
  by_cases h1 : trimSpace form.diskName = ""
  · exact ⟨.emptyDiskName, by simp [h1], rfl⟩
  by_cases h2 : trimSpace form.accessKey = ""
  · exact ⟨.emptyAccessKey, by simp [h1, h2], rfl⟩
  by_cases h3 : trimSpace form.secretKey = ""
  · exact ⟨.emptySecret, by simp [h1, h2, h3], rfl⟩
  by_cases h4 : trimSpace form.bucket = ""
  · exact ⟨.emptyBucket, by simp [h1, h2, h3, h4], rfl⟩
  cases hp : parseObsTypeFromBucket w.order (trimSpace form.bucket) with
  | error err => exact ⟨.parseFailed err, by simp [h1, h2, h3, h4, hp], rfl⟩
  | ok obsType => exact absurd ⟨obsType, h1, h2, h3, h4, hp⟩ h

theorem countByName_pos_iff (db : DB) (n : String) :
    0 < countByName db n ↔ ∃ v ∈ db, v.Name = n := by
  unfold countByName
  rw [List.length_pos_iff_exists_mem]
  simp [List.mem_filter]

theorem countByName_zero_iff (db : DB) (n : String) :
    countByName db n = 0 ↔ ∀ v ∈ db, v.Name ≠ n := by
  have := countByName_pos_iff db n
  constructor
  · intro h v hv hn
    have : 0 < countByName db n := this.2 ⟨v, hv, hn⟩
    omega
  · intro h
    by_contra hc
    obtain ⟨v, hv, hn⟩ := this.1 (Nat.pos_of_ne_zero hc)
    exact h v hv hn

theorem validInput_form0 (w : World) (h : w.order = order0) : ValidInput form0 w "oss" := by
  refine ⟨by decide, by decide, by decide, by decide, ?_⟩
  rw [h]
  rfl

theorem diskExisted_false (db : DB) (n : String) (q : Option String)
    (h : diskExisted db n q = (false, none)) : q = none ∧ ∀ v ∈ db, v.Name ≠ n := by
  cases q with
  | some err => simp [diskExisted] at h
  | none =>
    refine ⟨rfl, (countByName_zero_iff db n).1 ?_⟩
    simp only [diskExisted, Prod.mk.injEq, decide_eq_false_iff_not, and_true] at h
    omega

/-- C4: a create request passes the input checks and the duplicate check, and the format
command exits non-zero. Then the table is unchanged and holds no record of the name, the
effects are the count query, the command and the removal of `metasDir/name`, and the
error shown carries `extraFatalErr` of the captured standard error. -/
theorem formSubmit_format_failed (env : Env) (db : DB) (form : Form) (w : World)
    (obsType err : String) (hv : ValidInput form w obsType)
    (hd : diskExisted db (trimSpace form.diskName) w.queryErr = (false, none))
    (hrun : w.runErr = some err) :
    formSubmit env db form w =
        (.showError (.formatErr (extraFatalErr w.stderr)), db,
          [.countQuery (trimSpace form.diskName),
           .run (formatArgv env (trimSpace form.accessKey) (trimSpace form.secretKey)
             (trimSpace form.bucket) obsType
             (env.pathJoin env.metasDir (trimSpace form.diskName))
             (trimSpace form.diskName)),
           .osRemove (env.pathJoin env.metasDir (trimSpace form.diskName))]) ∧
      (∀ v ∈ (formSubmit env db form w).2.1, v.Name ≠ trimSpace form.diskName) ∧
      (SubmitError.formatErr (extraFatalErr w.stderr)).message =
        "format err: " ++ extraFatalErr w.stderr := by
  have heq : formSubmit env db form w =
      (.showError (.formatErr (extraFatalErr w.stderr)), db,
        [.countQuery (trimSpace form.diskName),
         .run (formatArgv env (trimSpace form.accessKey) (trimSpace form.secretKey)
           (trimSpace form.bucket) obsType
           (env.pathJoin env.metasDir (trimSpace form.diskName))
           (trimSpace form.diskName)),
         .osRemove (env.pathJoin env.metasDir (trimSpace form.diskName))]) := by
    rw [formSubmit_of_valid env db form w obsType hv, hd, hrun]
  refine ⟨heq, ?_, rfl⟩
  rw [heq]
  exact (diskExisted_false _ _ _ hd).2

/-- Witness of `formSubmit_format_failed`: the form `form0` on the empty table, with a
format command that exits non-zero. -/
theorem formSubmit_format_failed_witness :
    formSubmit env0 [] form0 worldFormatFails =
        (.showError (.formatErr " disk full\nmore"), [],
          [.countQuery "d1",
           .run ["/opt/obsdisk/juicefs", "format", "--trash-days", "0", "--access-key", "A",
             "--secret-key", "B", "--bucket", "bucket.aliyuncs.com", "--storage", "oss",
             "sqlite3:///home/u/ObsDisk/metas/d1", "d1"],
           .osRemove "/home/u/ObsDisk/metas/d1"]) ∧
      (∀ v ∈ (formSubmit env0 [] form0 worldFormatFails).2.1, v.Name ≠ trimSpace form0.diskName) ∧
      (SubmitError.formatErr (extraFatalErr worldFormatFails.stderr)).message =
        "format err: " ++ extraFatalErr worldFormatFails.stderr :=
  formSubmit_format_failed env0 [] form0 worldFormatFails "oss" "exit status 1"
    (validInput_form0 _ rfl) (by decide) rfl

/-- C5: a create request passes the input checks and the duplicate check, the format
command succeeds and the insert fails. Then the removal of `metasDir/name` is attempted
after the insert, the error of the insert is the one shown, and the table afterwards is
the table before and holds no record of the name. -/
theorem formSubmit_record_failed (env : Env) (db : DB) (form : Form) (w : World)
    (obsType err : String) (hv : ValidInput form w obsType)
    (hd : diskExisted db (trimSpace form.diskName) w.queryErr = (false, none))
    (hrun : w.runErr = none) (hins : w.insert = .error err) :
    formSubmit env db form w =
        (.showError (.recordErr err), db,
          [.countQuery (trimSpace form.diskName),
           .run (formatArgv env (trimSpace form.accessKey) (trimSpace form.secretKey)
             (trimSpace form.bucket) obsType
             (env.pathJoin env.metasDir (trimSpace form.diskName))
             (trimSpace form.diskName)),
           .insert (trimSpace form.diskName) obsType,
           .osRemove (env.pathJoin env.metasDir (trimSpace form.diskName))]) ∧
      (∀ v ∈ (formSubmit env db form w).2.1, v.Name ≠ trimSpace form.diskName) ∧
      (SubmitError.recordErr err).message = "record disk err: " ++ err := by
  have heq : formSubmit env db form w =
      (.showError (.recordErr err), db,
        [.countQuery (trimSpace form.diskName),
         .run (formatArgv env (trimSpace form.accessKey) (trimSpace form.secretKey)
           (trimSpace form.bucket) obsType
           (env.pathJoin env.metasDir (trimSpace form.diskName))
           (trimSpace form.diskName)),
         .insert (trimSpace form.diskName) obsType,
         .osRemove (env.pathJoin env.metasDir (trimSpace form.diskName))]) := by
    rw [formSubmit_of_valid env db form w obsType hv, hd, hrun, hins]
    rfl
  refine ⟨heq, ?_, rfl⟩
  rw [heq]
  exact (diskExisted_false _ _ _ hd).2

/-- Witness of `formSubmit_record_failed`: the form `form0` on the empty table, with an
insert that fails. -/
theorem formSubmit_record_failed_witness :
    formSubmit env0 [] form0 worldInsertFails =
        (.showError (.recordErr "database is locked"), [],
          [.countQuery "d1",
           .run ["/opt/obsdisk/juicefs", "format", "--trash-days", "0", "--access-key", "A",
             "--secret-key", "B", "--bucket", "bucket.aliyuncs.com", "--storage", "oss",
             "sqlite3:///home/u/ObsDisk/metas/d1", "d1"],
           .insert "d1" "oss",
           .osRemove "/home/u/ObsDisk/metas/d1"]) ∧
      (∀ v ∈ (formSubmit env0 [] form0 worldInsertFails).2.1, v.Name ≠ trimSpace form0.diskName) ∧
      (SubmitError.recordErr "database is locked").message =
        "record disk err: " ++ "database is locked" :=
  formSubmit_record_failed env0 [] form0 worldInsertFails "oss" "database is locked"
    (validInput_form0 _ rfl) (by decide) rfl rfl

/-- C6: when the trimmed disk name, access key, secret key or bucket is empty, or no
keyword of `obsSchemaMap` occurs in the trimmed bucket, `formSubmit` shows an
invalid-input error, leaves the table as it is and attempts no effect at all: no count
query, no command, no insert, no removal. -/
theorem formSubmit_rejects_invalid_input (env : Env) (db : DB) (form : Form) (w : World)
    (h : trimSpace form.diskName = "" ∨ trimSpace form.accessKey = "" ∨
      trimSpace form.secretKey = "" ∨ trimSpace form.bucket = "" ∨
      ∀ kv ∈ obsSchemaMap, ¬ kv.1.data <:+: (trimSpace form.bucket).data) :
    ∃ e, formSubmit env db form w = (.showError e, db, []) ∧ e.isInvalidInput = true := by
  apply formSubmit_of_invalid
  rintro ⟨obsType, h1, h2, h3, h4, hp⟩
  rcases h with h | h | h | h | h
  · exact h1 h
  · exact h2 h
  · exact h3 h
  · exact h4 h
  · obtain ⟨err, herr⟩ := (parse_error_iff w.order (trimSpace form.bucket)).2 h
    rw [hp] at herr
    cases herr

/-- Witness of `formSubmit_rejects_invalid_input`: a blank access key. -/
theorem formSubmit_rejects_invalid_input_witness :
    ∃ e, formSubmit env0 dbD1 formNoKey worldOk = (.showError e, dbD1, []) ∧
      e.isInvalidInput = true :=
  formSubmit_rejects_invalid_input env0 dbD1 formNoKey worldOk (Or.inr (Or.inl (by decide)))

/-! ### Uniqueness of names over a sequence of requests -/

theorem countByName_append_one (db : DB) (v : Vol) (n : String) :
    countByName (db ++ [v]) n = countByName db n + (if v.Name = n then 1 else 0) := by
  unfold countByName
  rw [List.filter_append, List.length_append]
  by_cases h : v.Name = n
  · simp [h]
  · simp [h]

theorem formSubmit_outcome (env : Env) (db : DB) (form : Form) (w : World) :
    ((formSubmit env db form w).1.isSuccess = false ∧ (formSubmit env db form w).2.1 = db) ∨
      ((formSubmit env db form w).1.isSuccess = true ∧
        countByName db (trimSpace form.diskName) = 0 ∧
        ∃ v, (formSubmit env db form w).2.1 = db ++ [v] ∧
          v.Name = trimSpace form.diskName) := by
  by_cases hv : ∃ obsType, ValidInput form w obsType
  · obtain ⟨obsType, hv⟩ := hv
    rw [formSubmit_of_valid env db form w obsType hv]
    cases hq : w.queryErr with
    | some err => left; simp [diskExisted, Dialog.isSuccess]
    | none =>
      by_cases hc : 0 < countByName db (trimSpace form.diskName)
      · left; simp [diskExisted, hc, Dialog.isSuccess]
      · have hc0 : countByName db (trimSpace form.diskName) = 0 := by omega
        cases hr : w.runErr with
        | some err => left; simp [diskExisted, hc, Dialog.isSuccess]
        | none =>
          cases hi : w.insert with
          | error err => left; simp [diskExisted, hc, dbCreate, Dialog.isSuccess]
          | ok p =>
            right
            obtain ⟨id, now⟩ := p
            simp [diskExisted, hc, hc0, dbCreate, Dialog.isSuccess]
  · obtain ⟨e, he, _⟩ := formSubmit_of_invalid env db form w hv
    left
    rw [he]
    exact ⟨rfl, rfl⟩

theorem successesFor_cons (env : Env) (db : DB) (form : Form) (w : World)
    (rest : List (Form × World)) (n : String) :
    successesFor env db ((form, w) :: rest) n =
      (if trimSpace form.diskName = n ∧ (formSubmit env db form w).1.isSuccess = true
        then 1 else 0) +
      successesFor env (formSubmit env db form w).2.1 rest n := by
  unfold successesFor
  simp only [runRequests, List.zip_cons_cons, List.filter_cons]
  by_cases h1 : trimSpace form.diskName = n
  · by_cases h2 : (formSubmit env db form w).1.isSuccess = true
    · simp [h1, h2]; omega
    · simp [h1, h2]
  · simp [h1]

theorem successesFor_of_existing (env : Env) (db : DB) (reqs : List (Form × World))
    (n : String) (h : 0 < countByName db n) : successesFor env db reqs n = 0 := by
  induction reqs generalizing db with
  | nil => rfl
  | cons req rest ih =>
    obtain ⟨form, w⟩ := req
    rw [successesFor_cons]
    rcases formSubmit_outcome env db form w with ⟨hs, hdb⟩ | ⟨hs, hc0, v, hdb, hvn⟩
    · rw [hdb, ih db h]
      simp [hs]
    · have hne : trimSpace form.diskName ≠ n := by
        rintro rfl
        omega
      rw [hdb, ih (db ++ [v]) (by rw [countByName_append_one]; omega)]
      simp [hne]

theorem successesFor_le_one (env : Env) (db : DB) (reqs : List (Form × World))
    (n : String) : successesFor env db reqs n ≤ 1 := by
  induction reqs generalizing db with
  | nil => exact Nat.zero_le _
  | cons req rest ih =>
    obtain ⟨form, w⟩ := req
    rw [successesFor_cons]
    rcases formSubmit_outcome env db form w with ⟨hs, hdb⟩ | ⟨hs, hc0, v, hdb, hvn⟩
    · have := ih (formSubmit env db form w).2.1
      simp only [hs, Bool.false_eq_true, and_false, if_false, Nat.zero_add]
      exact this
    · by_cases hn : trimSpace form.diskName = n
      · rw [hdb, successesFor_of_existing env (db ++ [v]) rest n
          (by rw [countByName_append_one, hvn, hn]; simp)]
        split <;> omega
      · have := ih (formSubmit env db form w).2.1
        simp only [hn, false_and, if_false, Nat.zero_add]
        exact this

theorem formSubmit_existing (env : Env) (db : DB) (form : Form) (w : World)
    (h : 0 < countByName db (trimSpace form.diskName)) :
    (formSubmit env db form w).1.isSuccess = false ∧
      (formSubmit env db form w).2.1 = db ∧
      ((formSubmit env db form w).2.2 = [] ∨
        (formSubmit env db form w).2.2 = [.countQuery (trimSpace form.diskName)]) ∧
      (∀ obsType, ValidInput form w obsType → w.queryErr = none →
        (formSubmit env db form w).1 = .showError (.existed (trimSpace form.diskName))) := by
  by_cases hv : ∃ obsType, ValidInput form w obsType
  · obtain ⟨obsType, hv⟩ := hv
    rw [formSubmit_of_valid env db form w obsType hv]
    cases hq : w.queryErr with
    | some err => simp [diskExisted, Dialog.isSuccess]
    | none => simp [diskExisted, h, Dialog.isSuccess]
  · obtain ⟨e, he, _⟩ := formSubmit_of_invalid env db form w hv
    rw [he]
    exact ⟨rfl, rfl, Or.inl rfl, fun t ht => absurd ⟨t, ht⟩ hv⟩

/-- C1, as the code has it: over any table and any sequence of create requests, with any
answers of the outside, at most one request succeeds for a given trimmed disk name. A
request for a name that already has a record fails, leaves the table as it is and
attempts no effect besides the count query (no format command, no insert); the error it
shows is the duplicate-name error when the input passes the input checks and the count
query answers. -/
theorem formSubmit_name_unique (env : Env) (db : DB) (reqs : List (Form × World)) :
    (∀ n, successesFor env db reqs n ≤ 1) ∧
      ∀ (db0 : DB) (form : Form) (w : World),
        0 < countByName db0 (trimSpace form.diskName) →
        (formSubmit env db0 form w).1.isSuccess = false ∧
          (formSubmit env db0 form w).2.1 = db0 ∧
          ((formSubmit env db0 form w).2.2 = [] ∨
            (formSubmit env db0 form w).2.2 = [.countQuery (trimSpace form.diskName)]) ∧
          (∀ obsType, ValidInput form w obsType → w.queryErr = none →
            (formSubmit env db0 form w).1 =
              .showError (.existed (trimSpace form.diskName))) :=
  ⟨successesFor_le_one env db reqs, fun db0 form w => formSubmit_existing env db0 form w⟩

/-- Witness of `formSubmit_name_unique`: the form `form0` twice on the empty table; the
first request succeeds and the second meets the record of `d1`. -/
theorem formSubmit_name_unique_witness :
    successesFor env0 [] [(form0, worldOk), (form0, worldOk)] "d1" ≤ 1 ∧
      (formSubmit env0 dbD1 form0 worldOk).1 = .showError (.existed (trimSpace form0.diskName)) :=
  ⟨(formSubmit_name_unique env0 [] [(form0, worldOk), (form0, worldOk)]).1 "d1",
    ((formSubmit_name_unique env0 [] []).2 dbD1 form0 worldOk (by decide)).2.2.2 "oss"
      (validInput_form0 _ rfl) rfl⟩

/-- C1 fails as written: the table holds a record named `d1`; a request for `d1` with a
blank access key is answered with the empty-access-key error, and a request for `d1`
whose count query fails is answered with the error of that query. Neither is the
duplicate-name error. -/
theorem formSubmit_existing_name_other_error :
    0 < countByName dbD1 (trimSpace formNoKey.diskName) ∧
      formSubmit env0 dbD1 formNoKey worldOk = (.showError .emptyAccessKey, dbD1, []) ∧
      0 < countByName dbD1 (trimSpace form0.diskName) ∧
      formSubmit env0 dbD1 form0 worldQueryFails =
        (.showError (.checkExistFailed "disk I/O error"), dbD1, [.countQuery "d1"]) ∧
      Dialog.showError .emptyAccessKey ≠ .showError (.existed "d1") ∧
      Dialog.showError (.checkExistFailed "disk I/O error") ≠ .showError (.existed "d1") :=
  ⟨by decide, rfl, by decide, rfl, by decide, by decide⟩

/-! ### The insert -/

/-- C7, as the code has it: `Meta.NewDisk` is the plain insert `db.Create` and looks at
no existing record. When the engine accepts the insert, exactly one record with the name
and the provider type is added, whether or not the name is in the table already; when
the engine reports an error, that error is returned and the table is unchanged. -/
theorem NewDisk_plain_insert (db : DB) (diskName obsType : String) :
    (∀ id now, ∃ v : Vol,
        NewDisk db diskName obsType (.ok (id, now)) = (db ++ [v], none) ∧
        v.Name = diskName ∧ v.ObsType = obsType ∧ v.CreatedAt = now ∧
        countByName (db ++ [v]) diskName = countByName db diskName + 1) ∧
      (∀ err, NewDisk db diskName obsType (.error err) = (db, some err)) ∧
      (∀ o, NewDisk db diskName obsType o = dbCreate db diskName obsType o) := by
  refine ⟨fun id now => ⟨_, rfl, rfl, rfl, rfl, ?_⟩, fun _ => rfl, fun _ => rfl⟩
  rw [countByName_append_one]
  simp

/-- C7 fails as written: the table holds a record named `d1`, the engine accepts the
insert, and `NewDisk` returns no error and leaves two records named `d1`. -/
theorem NewDisk_inserts_duplicate :
    0 < countByName dbD1 "d1" ∧
      (NewDisk dbD1 "d1" "cos" (.ok (2, 1700000000))).2 = none ∧
      countByName (NewDisk dbD1 "d1" "cos" (.ok (2, 1700000000))).1 "d1" = 2 := by
  decide

end ObsDisk
